import Mathlib

/-!
Verification of the token-classification feature-encoding pipeline
(`get_features` and the two dataset wrappers) of
`nemo/collections/nlp/data/token_classification/token_classification_dataset.py`.

The Python source is shallowly embedded: strings stay strings, Python lists
become `List`, the tokenizer collaborator becomes a structure of functions,
and the places where the source can raise (`max` of an empty list, list
indexing past the end) become `Option`/`Except` error branches.
-/

set_option linter.unusedVariables false

/-- Auxiliary scanner for `pySplit`: walks the character list, accumulating the
current word (reversed) in `acc` and emitting a word at each whitespace
boundary.  Implements Python `str.split()` with no separator argument: split on
runs of whitespace, producing no empty words. -/
def pySplitAux : List Char → List Char → List String
  | [], acc => if acc.isEmpty then [] else [String.mk acc.reverse]
  | c :: cs, acc =>
    if c.isWhitespace then
      if acc.isEmpty then pySplitAux cs []
      else String.mk acc.reverse :: pySplitAux cs []
    else pySplitAux cs (c :: acc)

/-- Python `query.strip().split()` (source line 79): the whitespace-separated
words of `query`.  The leading `strip()` is subsumed, since `split()` with no
argument already ignores leading and trailing whitespace. -/
def pySplit (s : String) : List String := pySplitAux s.toList []

/-- Python list slice `l[a:]` for an integer index `a`: a negative index counts
from the end and is clamped at the front of the list, an index past the end
yields the empty list. -/
def pySliceFrom (l : List α) (a : Int) : List α :=
  if a < 0 then l.drop (l.length - (-a).toNat) else l.drop a.toNat

/-- Python `s.endswith(t)`. -/
def pyEndsWith (s t : String) : Bool := t.toList.isSuffixOf s.toList

/-- The subword tokenizer collaborator (spec §2, an external capability): it
splits a word into subword pieces, maps each subword token to an integer id,
and provides the sentence-start (`cls_token`) and sentence-end (`sep_token`)
marker tokens. -/
structure Tokenizer where
  cls_token : String
  sep_token : String
  text_to_tokens : String → List String
  token_to_id : String → Nat

/-- `tokenizer.tokens_to_ids` (used at source line 132): the capability
"map subwords to integer ids" applied pointwise to a token sequence. -/
def Tokenizer.tokens_to_ids (tk : Tokenizer) (ts : List String) : List Nat :=
  ts.map tk.token_to_id

/-- Accumulated per-word output of the inner word loop of `get_features`
(source lines 90–101), before the boundary markers are attached. -/
structure WordAcc where
  subtokens : List String
  loss_mask : List Nat
  subtokens_mask : List Nat
  labels : List Nat
deriving DecidableEq, Repr

/-- The inner word loop of `get_features` (source lines 90–101).  For each word
the tokenizer produces `word_tokens`; the loop extends `subtokens` with them,
appends `1` then `(len-1)` copies of `int(not ignore_extra_tokens)` (here
`extraBit`) to `loss_mask`, appends `1` then `(len-1)` copies of `0` to
`subtokens_mask`, and, when labels are supplied, appends `len` copies of the
word's label id.  `qls?` carries the remaining `query_labels`; Python's
`query_labels[j]` raises `IndexError` when the labels run out before the
words, which is the `none` branch. -/
def wordsLoop (tk : Tokenizer) (extraBit : Nat) :
    List String → Option (List Nat) → Option WordAcc
  | [], _ => some ⟨[], [], [], []⟩
  | w :: ws, none =>
    (wordsLoop tk extraBit ws none).map fun r =>
      ⟨tk.text_to_tokens w ++ r.subtokens,
        (1 :: List.replicate ((tk.text_to_tokens w).length - 1) extraBit) ++ r.loss_mask,
        (1 :: List.replicate ((tk.text_to_tokens w).length - 1) 0) ++ r.subtokens_mask,
        []⟩
  | w :: ws, some [] => none
  | w :: ws, some (l :: ls) =>
    (wordsLoop tk extraBit ws (some ls)).map fun r =>
      ⟨tk.text_to_tokens w ++ r.subtokens,
        (1 :: List.replicate ((tk.text_to_tokens w).length - 1) extraBit) ++ r.loss_mask,
        (1 :: List.replicate ((tk.text_to_tokens w).length - 1) 0) ++ r.subtokens_mask,
        List.replicate (tk.text_to_tokens w).length l ++ r.labels⟩

/-- Per-sentence output of the first loop of `get_features`
(source lines 78–114), before batch-wide truncation and padding. -/
structure SentFeat where
  subtokens : List String
  loss_mask : List Nat
  subtokens_mask : List Nat
  input_mask : List Nat
  labels : List Nat
deriving DecidableEq, Repr

/-- The body of the first loop of `get_features` for one `query`
(source lines 78–114): split the query into words, prepend the `cls` marker
(loss bit `1 - ignore_start_end`, alignment bit `0`), run the word loop,
append the `sep` marker (same loss-mask policy, alignment bit `0`), and record
`input_mask = [1] * len(subtokens)`.  When labels are supplied
(`qlabs? = some _`) the label sequence is `pad_id` plus the word-loop labels
plus `pad_id`, where `query_labels = [label_ids[lab] for lab in raw_labels[i]]`
is the mapped label line. -/
def sentEncode (tk : Tokenizer) (label_ids : String → Nat) (pad_label : String)
    (ignore_extra_tokens ignore_start_end : Bool)
    (query : String) (qlabs? : Option (List String)) : Option SentFeat :=
  (wordsLoop tk (if ignore_extra_tokens then 0 else 1) (pySplit query)
      (qlabs?.map (fun ls => ls.map label_ids))).map fun r =>
      { subtokens := tk.cls_token :: r.subtokens ++ [tk.sep_token]
        loss_mask := (1 - (if ignore_start_end then 1 else 0)) :: r.loss_mask
          ++ [1 - (if ignore_start_end then 1 else 0)]
        subtokens_mask := 0 :: r.subtokens_mask ++ [0]
        input_mask := List.replicate (tk.cls_token :: r.subtokens ++ [tk.sep_token]).length 1
        labels := match qlabs? with
          | none => []
          | some _ => label_ids pad_label :: r.labels ++ [label_ids pad_label] }

/-- The first loop of `get_features` over all queries (source lines 78–114).
`raw_labels? = some rls` is the labelled mode; Python's `raw_labels[i]` raises
`IndexError` when the label lines run out before the queries, which is the
`none` branch. -/
def encodeSents (tk : Tokenizer) (label_ids : String → Nat) (pad_label : String)
    (ignore_extra_tokens ignore_start_end : Bool) :
    List String → Option (List (List String)) → Option (List SentFeat)
  | [], _ => some []
  | q :: qs, none =>
    (sentEncode tk label_ids pad_label ignore_extra_tokens ignore_start_end q none).bind
      fun s =>
        (encodeSents tk label_ids pad_label ignore_extra_tokens ignore_start_end qs none).map
          fun rest => s :: rest
  | q :: qs, some [] => none
  | q :: qs, some (ql :: qls) =>
    (sentEncode tk label_ids pad_label ignore_extra_tokens ignore_start_end q (some ql)).bind
      fun s =>
        (encodeSents tk label_ids pad_label ignore_extra_tokens ignore_start_end qs (some qls)).map
          fun rest => s :: rest

/-- One fully truncated and padded record of `get_features`
(source lines 121–144). -/
structure FinalRec where
  input_ids : List Nat
  segment_ids : List Nat
  input_mask : List Nat
  loss_mask : List Nat
  subtokens_mask : List Nat
  labels : List Nat
deriving DecidableEq, Repr

/-- The truncation step of the second loop of `get_features` for one sentence
(source lines 122–129), at effective max length `m`: if the sentence is longer
than `m`, keep the start marker (with its loss bit `int(not ignore_start_end)`
and alignment bit `0`) plus the Python slice `[-m+1:]` of every parallel
array, and reset the label head to `pad_id` when labelled; otherwise leave the
sentence unchanged. -/
def truncSent (tk : Tokenizer) (ignore_start_end : Bool) (with_label : Bool)
    (pad_id : Nat) (m : Nat) (s : SentFeat) : SentFeat :=
  if m < s.subtokens.length then
    { subtokens := tk.cls_token :: pySliceFrom s.subtokens (1 - (m : Int))
      input_mask := 1 :: pySliceFrom s.input_mask (1 - (m : Int))
      loss_mask := (if ignore_start_end then 0 else 1)
        :: pySliceFrom s.loss_mask (1 - (m : Int))
      subtokens_mask := 0 :: pySliceFrom s.subtokens_mask (1 - (m : Int))
      labels := if with_label then pad_id :: pySliceFrom s.labels (1 - (m : Int))
        else s.labels }
  else s

/-- The id-mapping and padding step of the second loop of `get_features`
(source lines 132–144), at effective max length `m`: map the (possibly
truncated) subtokens to ids, right-pad every array with `0` (labels with
`pad_id`) up to `m` when the sentence is shorter, and emit
`segment_ids = [0] * m`. -/
def padSent (tk : Tokenizer) (with_label : Bool) (pad_id : Nat) (m : Nat)
    (t : SentFeat) : FinalRec :=
  if t.subtokens.length < m then
    { input_ids := tk.tokens_to_ids t.subtokens ++ List.replicate (m - t.subtokens.length) 0
      segment_ids := List.replicate m 0
      input_mask := t.input_mask ++ List.replicate (m - t.subtokens.length) 0
      loss_mask := t.loss_mask ++ List.replicate (m - t.subtokens.length) 0
      subtokens_mask := t.subtokens_mask ++ List.replicate (m - t.subtokens.length) 0
      labels := if with_label then t.labels ++ List.replicate (m - t.subtokens.length) pad_id
        else t.labels }
  else
    { input_ids := tk.tokens_to_ids t.subtokens
      segment_ids := List.replicate m 0
      input_mask := t.input_mask
      loss_mask := t.loss_mask
      subtokens_mask := t.subtokens_mask
      labels := t.labels }

/-- The body of the second loop of `get_features` for one sentence
(source lines 121–144): truncation followed by id mapping and padding. -/
def finalizeSent (tk : Tokenizer) (ignore_start_end : Bool) (with_label : Bool)
    (pad_id : Nat) (m : Nat) (s : SentFeat) : FinalRec :=
  padSent tk with_label pad_id m (truncSent tk ignore_start_end with_label pad_id m s)

/-- The six parallel sequences returned by `get_features` (source line 157),
together with the truncation count the source reports through
`logging.warning` (source lines 119–130, 146), kept here as an observable. -/
structure Features where
  input_ids : List (List Nat)
  segment_ids : List (List Nat)
  input_mask : List (List Nat)
  loss_mask : List (List Nat)
  subtokens_mask : List (List Nat)
  labels : List (List Nat)
  too_long_count : Nat
deriving DecidableEq, Repr

/-- The batch-wide part of `get_features` (source lines 116–157) applied to the
output of the first loop: compute the effective max length
`min(max_seq_length, max(sent_lengths))`, truncate / pad every sentence to it,
and collect the six parallel sequences (`all_labels` stays `[]` when no labels
were supplied) plus the reported truncation count.

The effective max length of source line 116,
`max_seq_length = min(max_seq_length, max(sent_lengths))`, is `effMax`;
`max` of the non-empty length list coincides with `foldl Nat.max 0`. -/
def effMax (max_seq_length : Nat) (sents : List SentFeat) : Nat :=
  min max_seq_length ((sents.map (fun s => s.subtokens.length)).foldl Nat.max 0)

def buildFeatures (tk : Tokenizer) (ignore_start_end : Bool) (with_label : Bool)
    (pad_id : Nat) (max_seq_length : Nat) (sents : List SentFeat) : Features :=
  let m := effMax max_seq_length sents
  let recs := sents.map (finalizeSent tk ignore_start_end with_label pad_id m)
  { input_ids := recs.map FinalRec.input_ids
    segment_ids := recs.map FinalRec.segment_ids
    input_mask := recs.map FinalRec.input_mask
    loss_mask := recs.map FinalRec.loss_mask
    subtokens_mask := recs.map FinalRec.subtokens_mask
    labels := if with_label then recs.map FinalRec.labels else []
    too_long_count := sents.countP (fun s => m < s.subtokens.length) }

/-- `get_features` (source lines 39–157).  The label vocabulary `label_ids` is
the dict mapping label strings to ids, embedded as a total map (a missing-key
`KeyError` is out of scope of the claims).  The result is `none` exactly where
the source raises: `max(sent_lengths)` on an empty query list (line 116), or a
`raw_labels` / `query_labels` index running out (lines 88, 101). -/
def get_features (queries : List String) (max_seq_length : Nat) (tk : Tokenizer)
    (label_ids : String → Nat) (pad_label : String)
    (raw_labels : Option (List (List String)))
    (ignore_extra_tokens ignore_start_end : Bool) : Option Features :=
  (encodeSents tk label_ids pad_label ignore_extra_tokens ignore_start_end
      queries raw_labels).bind fun sents =>
    if sents.isEmpty then none
    else some (buildFeatures tk ignore_start_end raw_labels.isSome
      (label_ids pad_label) max_seq_length sents)

/-- Validation / construction error raised by
`BertTokenClassificationDataset.__init__` (source lines 208–258). -/
inductive InitError
  | badExtension
  | zeroNumSamples
  | labelsLineCountMismatch
  | emptyTake
deriving DecidableEq, Repr

/-- The validation and sample-selection logic of
`BertTokenClassificationDataset.__init__` (source lines 222–257), with the file
system abstracted to the lines read from the two files and to the flags
`master_device` (line 234) and `cache_exists` (`os.path.exists(features_pkl)`,
line 235).  The extension check (line 225) runs unconditionally; the
zero-sample check (line 236), the line-count check (line 248) and the
sample-count cap (lines 251–257) run only on the master device when the cache
is being (re)computed.  `emptyTake` is the `IndexError` of `dataset[0]` at
line 256 when a positive cap is applied to an empty file. -/
def trainInitChecks (text_file : String) (master_device overwrite_processed_files
    cache_exists : Bool) (num_samples : Int) (text_lines : List String)
    (labels_lines : List (List String)) :
    Except InitError (List String × List (List String)) :=
  if ¬ pyEndsWith text_file ".txt" then .error .badExtension
  else if master_device ∧ (overwrite_processed_files ∨ ¬ cache_exists) then
    if num_samples = 0 then .error .zeroNumSamples
    else if labels_lines.length ≠ text_lines.length then .error .labelsLineCountMismatch
    else if 0 < num_samples then
      if text_lines.isEmpty then .error .emptyTake
      else .ok (text_lines.take num_samples.toNat, labels_lines.take num_samples.toNat)
    else .ok (text_lines, labels_lines)
  else .ok (text_lines, labels_lines)

/-- The five feature sequences stored by `BertTokenClassificationInferDataset`
(source lines 334–338): the labels component of `get_features` is not kept. -/
structure InferDataset where
  all_input_ids : List (List Nat)
  all_segment_ids : List (List Nat)
  all_input_mask : List (List Nat)
  all_loss_mask : List (List Nat)
  all_subtokens_mask : List (List Nat)
deriving DecidableEq, Repr

/-- `BertTokenClassificationInferDataset.__init__` (source lines 331–338):
call `get_features` with no label vocabulary and no labels (the Python
defaults `label_ids=None`, `pad_label='O'`, `raw_labels=None`, both flags
false; the unused `label_ids=None` is embedded as an arbitrary total map) and
store the first five components. -/
def mkInferDataset (queries : List String) (max_seq_length : Nat) (tk : Tokenizer) :
    Option InferDataset :=
  (get_features queries max_seq_length tk (fun _ => 0) "O" none false false).map
    (fun F => ⟨F.input_ids, F.segment_ids, F.input_mask, F.loss_mask, F.subtokens_mask⟩)

/-- Spec-side formula for the length of a sentence's produced subtoken
sequence: the two boundary markers plus the total number of subword pieces of
its words (spec §4.1 steps 2–4). -/
def sentLen (tk : Tokenizer) (q : String) : Nat :=
  2 + ((pySplit q).map (fun w => (tk.text_to_tokens w).length)).sum

/-- Concrete tokenizer for witnesses: every word is a single subtoken, ids are
the token lengths. -/
def tkId : Tokenizer :=
  ⟨"[CLS]", "[SEP]", fun w => [w], String.length⟩

/-- Concrete tokenizer for witnesses: every word splits into two copies of
itself, ids are the token lengths. -/
def tkDup : Tokenizer :=
  ⟨"[CLS]", "[SEP]", fun w => [w, w], String.length⟩


/-! ### Properties of the inner word loop -/

/-- The word loop on no words returns the empty accumulator. -/
theorem wl_nil (tk : Tokenizer) (e : Nat) (q? : Option (List Nat)) :
    wordsLoop tk e [] q? = some ⟨[], [], [], []⟩ := by
  cases q? <;> rfl

/-- Inversion of one step of `wordsLoop`. -/
theorem wl_cons_inv (tk : Tokenizer) (e : Nat) (w : String) (ws : List String)
    (q? : Option (List Nat)) (r : WordAcc)
    (h : wordsLoop tk e (w :: ws) q? = some r) :
    ∃ r' q?', wordsLoop tk e ws q?' = some r' ∧
      r.subtokens = tk.text_to_tokens w ++ r'.subtokens ∧
      r.loss_mask = (1 :: List.replicate ((tk.text_to_tokens w).length - 1) e)
        ++ r'.loss_mask ∧
      r.subtokens_mask = (1 :: List.replicate ((tk.text_to_tokens w).length - 1) 0)
        ++ r'.subtokens_mask := by
  match q? with
  | none =>
    simp only [wordsLoop, Option.map_eq_some'] at h
    obtain ⟨r', hr', hr⟩ := h
    exact ⟨r', none, hr', by rw [← hr], by rw [← hr], by rw [← hr]⟩
  | some [] =>
    simp only [wordsLoop] at h
    exact Option.noConfusion h
  | some (l :: ls) =>
    simp only [wordsLoop, Option.map_eq_some'] at h
    obtain ⟨r', hr', hr⟩ := h
    exact ⟨r', some ls, hr', by rw [← hr], by rw [← hr], by rw [← hr]⟩

/-- The word loop with no labels never fails. -/
theorem wl_none_isSome (tk : Tokenizer) (e : Nat) (ws : List String) :
    (wordsLoop tk e ws none).isSome := by
  induction ws with
  | nil => rfl
  | cons w ws ih =>
    simp only [wordsLoop]
    cases h : wordsLoop tk e ws none with
    | none => rw [h] at ih; exact absurd ih (by simp)
    | some r => simp

/-- The word loop's subtokens are the concatenated tokenizations of the words. -/
theorem wl_subtokens (tk : Tokenizer) (e : Nat) :
    ∀ (ws : List String) (q? : Option (List Nat)) (r : WordAcc),
      wordsLoop tk e ws q? = some r →
      r.subtokens = (ws.map tk.text_to_tokens).flatten := by
  intro ws
  induction ws with
  | nil =>
    intro q? r h
    rw [wl_nil] at h
    cases h; rfl
  | cons w ws ih =>
    intro q? r h
    obtain ⟨r', q?', hr', hs, -, -⟩ := wl_cons_inv tk e w ws q? r h
    simp [hs, ih q?' r' hr']

/-- The word loop's loss mask is the concatenation of the per-word pieces
`1 :: replicate (len - 1) extraBit` (source lines 94–95). -/
theorem wl_loss_mask (tk : Tokenizer) (e : Nat) :
    ∀ (ws : List String) (q? : Option (List Nat)) (r : WordAcc),
      wordsLoop tk e ws q? = some r →
      r.loss_mask =
        (ws.map (fun w =>
          1 :: List.replicate ((tk.text_to_tokens w).length - 1) e)).flatten := by
  intro ws
  induction ws with
  | nil =>
    intro q? r h
    rw [wl_nil] at h
    cases h; rfl
  | cons w ws ih =>
    intro q? r h
    obtain ⟨r', q?', hr', -, hl, -⟩ := wl_cons_inv tk e w ws q? r h
    simp [hl, ih q?' r' hr']

/-- The word loop's alignment mask is the concatenation of the per-word pieces
`1 :: replicate (len - 1) 0` (source lines 97–98). -/
theorem wl_subtokens_mask (tk : Tokenizer) (e : Nat) :
    ∀ (ws : List String) (q? : Option (List Nat)) (r : WordAcc),
      wordsLoop tk e ws q? = some r →
      r.subtokens_mask =
        (ws.map (fun w =>
          1 :: List.replicate ((tk.text_to_tokens w).length - 1) 0)).flatten := by
  intro ws
  induction ws with
  | nil =>
    intro q? r h
    rw [wl_nil] at h
    cases h; rfl
  | cons w ws ih =>
    intro q? r h
    obtain ⟨r', q?', hr', -, -, hm⟩ := wl_cons_inv tk e w ws q? r h
    simp [hm, ih q?' r' hr']

/-- In labelled mode the word loop's labels are the per-word label ids, each
repeated once per subword of its word (source lines 100–101). -/
theorem wl_labels (tk : Tokenizer) (e : Nat) :
    ∀ (ws : List String) (qls : List Nat) (r : WordAcc),
      wordsLoop tk e ws (some qls) = some r →
      r.labels =
        (List.zipWith (fun w l => List.replicate (tk.text_to_tokens w).length l)
          ws qls).flatten := by
  intro ws
  induction ws with
  | nil => intro qls r h; rw [wl_nil] at h; cases h; rfl
  | cons w ws ih =>
    intro qls r h
    match qls with
    | [] =>
      simp only [wordsLoop] at h
      exact Option.noConfusion h
    | l :: ls =>
      simp only [wordsLoop, Option.map_eq_some'] at h
      obtain ⟨r', hr', hr⟩ := h
      subst hr
      simp [ih ls r' hr']

/-- Under the tokenizer contract that every word yields at least one subword
piece (spec §3: "one or more subword pieces"), the word loop's loss and
alignment masks have exactly one entry per produced subtoken. -/
theorem wl_parallel (tk : Tokenizer) (e : Nat)
    (htk : ∀ w, tk.text_to_tokens w ≠ []) :
    ∀ (ws : List String) (q? : Option (List Nat)) (r : WordAcc),
      wordsLoop tk e ws q? = some r →
      r.loss_mask.length = r.subtokens.length ∧
      r.subtokens_mask.length = r.subtokens.length := by
  intro ws
  induction ws with
  | nil => intro q? r h; rw [wl_nil] at h; cases h; exact ⟨rfl, rfl⟩
  | cons w ws ih =>
    intro q? r h
    obtain ⟨r', q?', hr', hs, hl, hm⟩ := wl_cons_inv tk e w ws q? r h
    obtain ⟨ih1, ih2⟩ := ih q?' r' hr'
    have hw : 1 ≤ (tk.text_to_tokens w).length := List.length_pos.mpr (htk w)
    constructor
    · rw [hl, hs]
      simp only [List.length_cons, List.length_append, List.length_replicate, ih1]
      omega
    · rw [hm, hs]
      simp only [List.length_cons, List.length_append, List.length_replicate, ih2]
      omega

/-- In labelled mode the word loop produces exactly one label per subtoken
(labels are expanded per subword, source line 101). -/
theorem wl_labels_parallel (tk : Tokenizer) (e : Nat) :
    ∀ (ws : List String) (qls : List Nat) (r : WordAcc),
      wordsLoop tk e ws (some qls) = some r →
      r.labels.length = r.subtokens.length := by
  intro ws
  induction ws with
  | nil => intro qls r h; rw [wl_nil] at h; cases h; rfl
  | cons w ws ih =>
    intro qls r h
    match qls with
    | [] =>
      simp only [wordsLoop] at h
      exact Option.noConfusion h
    | l :: ls =>
      simp only [wordsLoop, Option.map_eq_some'] at h
      obtain ⟨r', hr', hr⟩ := h
      subst hr
      simp [ih ls r' hr']

/-- The word loop's alignment mask holds exactly one `1` per word. -/
theorem wl_mask_count (tk : Tokenizer) (e : Nat) :
    ∀ (ws : List String) (q? : Option (List Nat)) (r : WordAcc),
      wordsLoop tk e ws q? = some r →
      r.subtokens_mask.count 1 = ws.length := by
  intro ws
  induction ws with
  | nil => intro q? r h; rw [wl_nil] at h; cases h; rfl
  | cons w ws ih =>
    intro q? r h
    obtain ⟨r', q?', hr', -, -, hm⟩ := wl_cons_inv tk e w ws q? r h
    rw [hm]
    simp [List.count_cons, List.count_append, List.count_replicate, ih q?' r' hr']

/-! ### Properties of the per-sentence encoding -/

/-- Inversion of `sentEncode`: the per-sentence arrays in terms of the word
loop's output. -/
theorem se_inv (tk : Tokenizer) (li : String → Nat) (pl : String)
    (iet ise : Bool) (q : String) (ql? : Option (List String)) (s : SentFeat)
    (h : sentEncode tk li pl iet ise q ql? = some s) :
    ∃ r, wordsLoop tk (if iet then 0 else 1) (pySplit q)
        (ql?.map (fun ls => ls.map li)) = some r ∧
      s.subtokens = tk.cls_token :: r.subtokens ++ [tk.sep_token] ∧
      s.loss_mask = (1 - (if ise then 1 else 0)) :: r.loss_mask
        ++ [1 - (if ise then 1 else 0)] ∧
      s.subtokens_mask = 0 :: r.subtokens_mask ++ [0] ∧
      s.input_mask = List.replicate s.subtokens.length 1 := by
  simp only [sentEncode, Option.map_eq_some'] at h
  obtain ⟨r, hr, hs⟩ := h
  subst hs
  exact ⟨r, hr, rfl, rfl, rfl, rfl⟩

/-- With no labels supplied, the per-sentence label list stays empty. -/
theorem se_labels_none (tk : Tokenizer) (li : String → Nat) (pl : String)
    (iet ise : Bool) (q : String) (s : SentFeat)
    (h : sentEncode tk li pl iet ise q none = some s) : s.labels = [] := by
  simp only [sentEncode, Option.map_eq_some'] at h
  obtain ⟨r, hr, hs⟩ := h
  subst hs
  rfl

/-- In labelled mode the per-sentence labels are `pad_id`, the word-loop
labels, then `pad_id` again (source lines 87, 101, 113). -/
theorem se_labels_some (tk : Tokenizer) (li : String → Nat) (pl : String)
    (iet ise : Bool) (q : String) (ql : List String) (s : SentFeat)
    (h : sentEncode tk li pl iet ise q (some ql) = some s) :
    ∃ r, wordsLoop tk (if iet then 0 else 1) (pySplit q)
        (some (ql.map li)) = some r ∧
      s.labels = li pl :: r.labels ++ [li pl] := by
  simp only [sentEncode, Option.map_eq_some'] at h
  obtain ⟨r, hr, hs⟩ := h
  subst hs
  exact ⟨r, hr, rfl⟩

/-- With no labels supplied, the per-sentence encoding never fails. -/
theorem se_isSome_none (tk : Tokenizer) (li : String → Nat) (pl : String)
    (iet ise : Bool) (q : String) :
    (sentEncode tk li pl iet ise q none).isSome := by
  cases hw : wordsLoop tk (if iet then 0 else 1) (pySplit q) none with
  | none =>
    have := wl_none_isSome tk (if iet then 0 else 1) (pySplit q)
    rw [hw] at this
    exact absurd this (by simp)
  | some r => simp [sentEncode, hw]

/-- The number of produced subtokens of a sentence is the two boundary markers
plus the subword pieces of its words. -/
theorem se_subtokens_length (tk : Tokenizer) (li : String → Nat) (pl : String)
    (iet ise : Bool) (q : String) (ql? : Option (List String)) (s : SentFeat)
    (h : sentEncode tk li pl iet ise q ql? = some s) :
    s.subtokens.length = sentLen tk q := by
  obtain ⟨r, hr, hs, -, -, -⟩ := se_inv tk li pl iet ise q ql? s h
  have h1 := wl_subtokens tk (if iet then 0 else 1) (pySplit q) _ r hr
  rw [hs, h1]
  simp only [sentLen, List.length_cons, List.length_append, List.length_flatten,
    List.map_map, List.length_singleton, List.length_nil, Function.comp_def]
  omega

/-- Every encoded sentence has at least the two boundary markers. -/
theorem se_two_le (tk : Tokenizer) (li : String → Nat) (pl : String)
    (iet ise : Bool) (q : String) (ql? : Option (List String)) (s : SentFeat)
    (h : sentEncode tk li pl iet ise q ql? = some s) :
    2 ≤ s.subtokens.length := by
  obtain ⟨r, hr, hs, -, -, -⟩ := se_inv tk li pl iet ise q ql? s h
  rw [hs]
  simp only [List.length_cons, List.length_append, List.length_singleton]
  omega

/-- Under the tokenizer contract, the per-sentence loss mask, alignment mask
and input mask all run in parallel with the subtokens. -/
theorem se_parallel (tk : Tokenizer) (li : String → Nat) (pl : String)
    (iet ise : Bool) (htk : ∀ w, tk.text_to_tokens w ≠ [])
    (q : String) (ql? : Option (List String)) (s : SentFeat)
    (h : sentEncode tk li pl iet ise q ql? = some s) :
    s.loss_mask.length = s.subtokens.length ∧
    s.subtokens_mask.length = s.subtokens.length ∧
    s.input_mask.length = s.subtokens.length := by
  obtain ⟨r, hr, hs, hl, hm, hi⟩ := se_inv tk li pl iet ise q ql? s h
  obtain ⟨p1, p2⟩ := wl_parallel tk (if iet then 0 else 1) htk (pySplit q) _ r hr
  refine ⟨?_, ?_, ?_⟩
  · rw [hl, hs]
    simp [p1]
  · rw [hm, hs]
    simp [p2]
  · rw [hi]
    simp

/-- In labelled mode the per-sentence labels run in parallel with the
subtokens. -/
theorem se_labels_length (tk : Tokenizer) (li : String → Nat) (pl : String)
    (iet ise : Bool) (q : String) (ql : List String) (s : SentFeat)
    (h : sentEncode tk li pl iet ise q (some ql) = some s) :
    s.labels.length = s.subtokens.length := by
  obtain ⟨r, hr, hs, -, -, -⟩ := se_inv tk li pl iet ise q (some ql) s h
  obtain ⟨r2, hr2, hlab⟩ := se_labels_some tk li pl iet ise q ql s h
  simp only [Option.map_some'] at hr
  have h3 : r2 = r := by rw [hr2] at hr; exact Option.some_inj.mp hr
  subst h3
  rw [hlab, hs]
  simp [wl_labels_parallel tk (if iet then 0 else 1) (pySplit q) (ql.map li) r2 hr2]

/-- The per-sentence alignment mask holds exactly one `1` per word of the
query. -/
theorem se_mask_count (tk : Tokenizer) (li : String → Nat) (pl : String)
    (iet ise : Bool) (q : String) (ql? : Option (List String)) (s : SentFeat)
    (h : sentEncode tk li pl iet ise q ql? = some s) :
    s.subtokens_mask.count 1 = (pySplit q).length := by
  obtain ⟨r, hr, -, -, hm, -⟩ := se_inv tk li pl iet ise q ql? s h
  rw [hm]
  simp [List.count_cons, List.count_append,
    wl_mask_count tk (if iet then 0 else 1) (pySplit q) _ r hr]

/-! ### Properties of the batch encoding loop -/

/-- The batch loop on no queries returns no sentences. -/
theorem es_nil (tk : Tokenizer) (li : String → Nat) (pl : String) (iet ise : Bool)
    (rl? : Option (List (List String))) :
    encodeSents tk li pl iet ise [] rl? = some [] := by
  cases rl? <;> rfl

/-- Inversion of one unlabelled step of `encodeSents`. -/
theorem es_cons_inv_none (tk : Tokenizer) (li : String → Nat) (pl : String)
    (iet ise : Bool) (q : String) (qs : List String) (sents : List SentFeat)
    (h : encodeSents tk li pl iet ise (q :: qs) none = some sents) :
    ∃ s rest, sentEncode tk li pl iet ise q none = some s ∧
      encodeSents tk li pl iet ise qs none = some rest ∧ sents = s :: rest := by
  simp only [encodeSents, Option.bind_eq_some, Option.map_eq_some'] at h
  obtain ⟨s, hs, rest, hrest, heq⟩ := h
  exact ⟨s, rest, hs, hrest, heq.symm⟩

/-- Inversion of one labelled step of `encodeSents`: the label lines must not
have run out, and the head sentence is encoded with the head label line. -/
theorem es_cons_inv_some (tk : Tokenizer) (li : String → Nat) (pl : String)
    (iet ise : Bool) (q : String) (qs : List String) (rls : List (List String))
    (sents : List SentFeat)
    (h : encodeSents tk li pl iet ise (q :: qs) (some rls) = some sents) :
    ∃ ql qls s rest, rls = ql :: qls ∧
      sentEncode tk li pl iet ise q (some ql) = some s ∧
      encodeSents tk li pl iet ise qs (some qls) = some rest ∧ sents = s :: rest := by
  match rls with
  | [] =>
    simp only [encodeSents] at h
    exact Option.noConfusion h
  | ql :: qls =>
    simp only [encodeSents, Option.bind_eq_some, Option.map_eq_some'] at h
    obtain ⟨s, hs, rest, hrest, heq⟩ := h
    exact ⟨ql, qls, s, rest, rfl, hs, hrest, heq.symm⟩

/-- With no labels supplied, the batch loop never fails. -/
theorem es_isSome_none (tk : Tokenizer) (li : String → Nat) (pl : String)
    (iet ise : Bool) : ∀ qs, (encodeSents tk li pl iet ise qs none).isSome := by
  intro qs
  induction qs with
  | nil => rfl
  | cons q qs ih =>
    simp only [encodeSents]
    cases hse : sentEncode tk li pl iet ise q none with
    | none =>
      have := se_isSome_none tk li pl iet ise q
      rw [hse] at this
      exact absurd this (by simp)
    | some s =>
      cases hes : encodeSents tk li pl iet ise qs none with
      | none => rw [hes] at ih; exact absurd ih (by simp)
      | some rest => simp

/-- The batch loop produces one sentence record per query. -/
theorem es_length (tk : Tokenizer) (li : String → Nat) (pl : String)
    (iet ise : Bool) :
    ∀ (qs : List String) (rl? : Option (List (List String))) (sents : List SentFeat),
      encodeSents tk li pl iet ise qs rl? = some sents →
      sents.length = qs.length := by
  intro qs
  induction qs with
  | nil =>
    intro rl? sents h
    rw [es_nil] at h
    cases h; rfl
  | cons q qs ih =>
    intro rl? sents h
    match rl? with
    | none =>
      obtain ⟨s, rest, -, hrest, heq⟩ := es_cons_inv_none tk li pl iet ise q qs sents h
      subst heq
      simp [ih none rest hrest]
    | some rls =>
      obtain ⟨ql, qls, s, rest, -, -, hrest, heq⟩ :=
        es_cons_inv_some tk li pl iet ise q qs rls sents h
      subst heq
      simp [ih (some qls) rest hrest]

/-- Every sentence record of the batch loop comes from `sentEncode` on the
query at the same position. -/
theorem es_get (tk : Tokenizer) (li : String → Nat) (pl : String) (iet ise : Bool) :
    ∀ (qs : List String) (rl? : Option (List (List String))) (sents : List SentFeat),
      encodeSents tk li pl iet ise qs rl? = some sents →
      ∀ (i : Nat) (q : String) (s : SentFeat), qs[i]? = some q → sents[i]? = some s →
        ∃ ql?, sentEncode tk li pl iet ise q ql? = some s := by
  intro qs
  induction qs with
  | nil => intro rl? sents h i q s hq hs; simp at hq
  | cons q' qs ih =>
    intro rl? sents h i q s hq hs
    match rl? with
    | none =>
      obtain ⟨s', rest, hse, hrest, heq⟩ := es_cons_inv_none tk li pl iet ise q' qs sents h
      subst heq
      match i with
      | 0 =>
        simp only [List.getElem?_cons_zero, Option.some_inj] at hq hs
        subst hq; subst hs
        exact ⟨none, hse⟩
      | i + 1 =>
        simp only [List.getElem?_cons_succ] at hq hs
        exact ih none rest hrest i q s hq hs
    | some rls =>
      obtain ⟨ql, qls, s', rest, hrls, hse, hrest, heq⟩ :=
        es_cons_inv_some tk li pl iet ise q' qs rls sents h
      subst heq
      match i with
      | 0 =>
        simp only [List.getElem?_cons_zero, Option.some_inj] at hq hs
        subst hq; subst hs
        exact ⟨some ql, hse⟩
      | i + 1 =>
        simp only [List.getElem?_cons_succ] at hq hs
        exact ih (some qls) rest hrest i q s hq hs

/-- In labelled mode, the sentence record at position `i` is encoded from the
query and the label line at position `i`. -/
theorem es_get_labeled (tk : Tokenizer) (li : String → Nat) (pl : String)
    (iet ise : Bool) :
    ∀ (qs : List String) (rls : List (List String)) (sents : List SentFeat),
      encodeSents tk li pl iet ise qs (some rls) = some sents →
      ∀ (i : Nat) (q : String) (ql : List String) (s : SentFeat),
        qs[i]? = some q → rls[i]? = some ql → sents[i]? = some s →
        sentEncode tk li pl iet ise q (some ql) = some s := by
  intro qs
  induction qs with
  | nil => intro rls sents h i q ql s hq hl hs; simp at hq
  | cons q' qs ih =>
    intro rls sents h i q ql s hq hl hs
    obtain ⟨ql', qls, s', rest, hrls, hse, hrest, heq⟩ :=
      es_cons_inv_some tk li pl iet ise q' qs rls sents h
    subst heq; subst hrls
    match i with
    | 0 =>
      simp only [List.getElem?_cons_zero, Option.some_inj] at hq hl hs
      subst hq; subst hl; subst hs
      exact hse
    | i + 1 =>
      simp only [List.getElem?_cons_succ] at hq hl hs
      exact ih qls rest hrest i q ql s hq hl hs

/-- Every member of the batch loop's output comes from `sentEncode`. -/
theorem es_mem (tk : Tokenizer) (li : String → Nat) (pl : String) (iet ise : Bool) :
    ∀ (qs : List String) (rl? : Option (List (List String))) (sents : List SentFeat),
      encodeSents tk li pl iet ise qs rl? = some sents →
      ∀ s ∈ sents, ∃ q ql?, sentEncode tk li pl iet ise q ql? = some s ∧
        ql?.isSome = rl?.isSome := by
  intro qs
  induction qs with
  | nil =>
    intro rl? sents h s hs
    rw [es_nil] at h
    cases h
    simp at hs
  | cons q' qs ih =>
    intro rl? sents h s hs
    match rl? with
    | none =>
      obtain ⟨s', rest, hse, hrest, heq⟩ := es_cons_inv_none tk li pl iet ise q' qs sents h
      subst heq
      rcases List.mem_cons.mp hs with h1 | h1
      · subst h1; exact ⟨q', none, hse, rfl⟩
      · exact ih none rest hrest s h1
    | some rls =>
      obtain ⟨ql, qls, s', rest, hrls, hse, hrest, heq⟩ :=
        es_cons_inv_some tk li pl iet ise q' qs rls sents h
      subst heq
      rcases List.mem_cons.mp hs with h1 | h1
      · subst h1; exact ⟨q', some ql, hse, rfl⟩
      · obtain ⟨q2, ql2, hse2, hiso⟩ := ih (some qls) rest hrest s h1
        exact ⟨q2, ql2, hse2, hiso⟩

/-- The produced sentence lengths of the batch are the `sentLen` values of the
queries, in order. -/
theorem es_lengths_map (tk : Tokenizer) (li : String → Nat) (pl : String)
    (iet ise : Bool) :
    ∀ (qs : List String) (rl? : Option (List (List String))) (sents : List SentFeat),
      encodeSents tk li pl iet ise qs rl? = some sents →
      sents.map (fun s => s.subtokens.length) = qs.map (sentLen tk) := by
  intro qs
  induction qs with
  | nil =>
    intro rl? sents h
    rw [es_nil] at h
    cases h; rfl
  | cons q' qs ih =>
    intro rl? sents h
    match rl? with
    | none =>
      obtain ⟨s', rest, hse, hrest, heq⟩ := es_cons_inv_none tk li pl iet ise q' qs sents h
      subst heq
      simp only [List.map_cons]
      rw [se_subtokens_length tk li pl iet ise q' none s' hse, ih none rest hrest]
    | some rls =>
      obtain ⟨ql, qls, s', rest, hrls, hse, hrest, heq⟩ :=
        es_cons_inv_some tk li pl iet ise q' qs rls sents h
      subst heq
      simp only [List.map_cons]
      rw [se_subtokens_length tk li pl iet ise q' (some ql) s' hse, ih (some qls) rest hrest]

/-! ### Properties of truncation, padding and assembly -/

/-- For `m ≥ 2` the Python slice `l[-m+1:]` keeps the last `m - 1` elements. -/
theorem pySliceFrom_neg (m : Nat) (hm : 2 ≤ m) (l : List α) :
    pySliceFrom l (1 - (m : Int)) = l.drop (l.length - (m - 1)) := by
  have h1 : (1 - (m : Int)) < 0 := by omega
  have h2 : (-(1 - (m : Int))).toNat = m - 1 := by omega
  simp only [pySliceFrom, if_pos h1, h2]

/-- A sentence at or under the effective max length is left unchanged by the
truncation step. -/
theorem truncSent_le (tk : Tokenizer) (ise wl : Bool) (pid m : Nat) (s : SentFeat)
    (h : s.subtokens.length ≤ m) :
    truncSent tk ise wl pid m s = s := by
  simp only [truncSent, if_neg (by omega : ¬ m < s.subtokens.length)]

/-- For an effective max length `m ≥ 2`, a sentence over `m` is truncated to
the start marker plus the last `m - 1` entries of each parallel array, with
the label head reset to `pad_id` when labelled. -/
theorem truncSent_gt (tk : Tokenizer) (ise wl : Bool) (pid m : Nat) (s : SentFeat)
    (hm : 2 ≤ m) (h : m < s.subtokens.length) :
    truncSent tk ise wl pid m s =
      { subtokens := tk.cls_token :: s.subtokens.drop (s.subtokens.length - (m - 1))
        input_mask := 1 :: s.input_mask.drop (s.input_mask.length - (m - 1))
        loss_mask := (if ise then 0 else 1)
          :: s.loss_mask.drop (s.loss_mask.length - (m - 1))
        subtokens_mask := 0 :: s.subtokens_mask.drop (s.subtokens_mask.length - (m - 1))
        labels := if wl then pid :: s.labels.drop (s.labels.length - (m - 1))
          else s.labels } := by
  simp only [truncSent, if_pos h, pySliceFrom_neg m hm]

/-- A sentence shorter than the effective max length is right-padded: `0` into
`input_ids`, `input_mask`, `loss_mask` and `subtokens_mask`, `pad_id` into the
labels when labelled. -/
theorem padSent_lt (tk : Tokenizer) (wl : Bool) (pid m : Nat) (t : SentFeat)
    (h : t.subtokens.length < m) :
    padSent tk wl pid m t =
      { input_ids := tk.tokens_to_ids t.subtokens
          ++ List.replicate (m - t.subtokens.length) 0
        segment_ids := List.replicate m 0
        input_mask := t.input_mask ++ List.replicate (m - t.subtokens.length) 0
        loss_mask := t.loss_mask ++ List.replicate (m - t.subtokens.length) 0
        subtokens_mask := t.subtokens_mask ++ List.replicate (m - t.subtokens.length) 0
        labels := if wl then t.labels ++ List.replicate (m - t.subtokens.length) pid
          else t.labels } := by
  simp only [padSent, if_pos h]

/-- A sentence at or over the effective max length is not padded. -/
theorem padSent_ge (tk : Tokenizer) (wl : Bool) (pid m : Nat) (t : SentFeat)
    (h : ¬ t.subtokens.length < m) :
    padSent tk wl pid m t =
      { input_ids := tk.tokens_to_ids t.subtokens
        segment_ids := List.replicate m 0
        input_mask := t.input_mask
        loss_mask := t.loss_mask
        subtokens_mask := t.subtokens_mask
        labels := t.labels } := by
  simp only [padSent, if_neg h]

/-- A sentence exactly at the effective max length is neither truncated nor
padded: only the id mapping and the segment ids are produced. -/
theorem finalizeSent_eq_len (tk : Tokenizer) (ise wl : Bool) (pid m : Nat)
    (s : SentFeat) (h : s.subtokens.length = m) :
    finalizeSent tk ise wl pid m s =
      { input_ids := tk.tokens_to_ids s.subtokens
        segment_ids := List.replicate m 0
        input_mask := s.input_mask
        loss_mask := s.loss_mask
        subtokens_mask := s.subtokens_mask
        labels := s.labels } := by
  rw [finalizeSent, truncSent_le tk ise wl pid m s h.le,
    padSent_ge tk wl pid m s (by omega)]

/-- Every finalized record carries `segment_ids = [0] * m`. -/
theorem finalizeSent_segment (tk : Tokenizer) (ise wl : Bool) (pid m : Nat)
    (s : SentFeat) :
    (finalizeSent tk ise wl pid m s).segment_ids = List.replicate m 0 := by
  rw [finalizeSent]
  unfold padSent
  split <;> rfl

/-- The initial accumulator bounds `foldl Nat.max` from below. -/
theorem foldl_max_init_le (l : List Nat) (a : Nat) : a ≤ l.foldl Nat.max a := by
  induction l generalizing a with
  | nil => exact le_refl a
  | cons x l ih => exact le_trans (Nat.le_max_left a x) (ih (Nat.max a x))

/-- Every member bounds `foldl Nat.max` from below. -/
theorem le_foldl_max_of_mem (l : List Nat) (x : Nat) (hx : x ∈ l) :
    ∀ a : Nat, x ≤ l.foldl Nat.max a := by
  induction l with
  | nil => cases hx
  | cons y l ih =>
    intro a
    rcases List.mem_cons.mp hx with h | h
    · subst h
      exact le_trans (Nat.le_max_right a x) (foldl_max_init_le l (Nat.max a x))
    · exact ih h (Nat.max a y)

/-- Inversion of `get_features`: success yields a non-empty encoded batch and
the assembled features. -/
theorem gf_some_inv (qs : List String) (m0 : Nat) (tk : Tokenizer)
    (li : String → Nat) (pl : String) (rl : Option (List (List String)))
    (iet ise : Bool) (F : Features)
    (h : get_features qs m0 tk li pl rl iet ise = some F) :
    ∃ sents, encodeSents tk li pl iet ise qs rl = some sents ∧ sents ≠ [] ∧
      F = buildFeatures tk ise rl.isSome (li pl) m0 sents := by
  simp only [get_features, Option.bind_eq_some] at h
  obtain ⟨sents, hs, h2⟩ := h
  by_cases he : sents.isEmpty = true
  · rw [if_pos he] at h2
    exact Option.noConfusion h2
  · rw [if_neg he] at h2
    refine ⟨sents, hs, ?_, (Option.some_inj.mp h2).symm⟩
    simpa [List.isEmpty_iff] using he

/-- Inversion of `get_features` against a known batch encoding. -/
theorem gf_some_with (qs : List String) (m0 : Nat) (tk : Tokenizer)
    (li : String → Nat) (pl : String) (rl : Option (List (List String)))
    (iet ise : Bool) (F : Features) (sents : List SentFeat)
    (h : get_features qs m0 tk li pl rl iet ise = some F)
    (hs : encodeSents tk li pl iet ise qs rl = some sents) :
    sents ≠ [] ∧ F = buildFeatures tk ise rl.isSome (li pl) m0 sents := by
  obtain ⟨sents', hs', hne, hF⟩ := gf_some_inv qs m0 tk li pl rl iet ise F h
  rw [hs] at hs'
  cases Option.some_inj.mp hs'
  exact ⟨hne, hF⟩

/-- On a non-empty query list with no labels supplied, `get_features`
succeeds. -/
theorem gf_isSome_none (q : String) (qs : List String) (m0 : Nat)
    (tk : Tokenizer) (li : String → Nat) (pl : String) (iet ise : Bool) :
    (get_features (q :: qs) m0 tk li pl none iet ise).isSome := by
  cases hs : encodeSents tk li pl iet ise (q :: qs) none with
  | none =>
    have := es_isSome_none tk li pl iet ise (q :: qs)
    rw [hs] at this
    exact absurd this (by simp)
  | some sents =>
    have hlen := es_length tk li pl iet ise (q :: qs) none sents hs
    have hne : sents ≠ [] := by
      cases sents with
      | nil => simp at hlen
      | cons a l => simp
    simp only [get_features, hs, Option.some_bind]
    rw [if_neg (by simpa [List.isEmpty_iff] using hne)]
    rfl

/-- The features assembled by `buildFeatures` at position `i` come from
finalizing the sentence at position `i` at the effective max length. -/
theorem buildF_get (tk : Tokenizer) (ise : Bool) (wl : Bool) (pid m0 : Nat)
    (sents : List SentFeat) (i : Nat) (s : SentFeat) (hi : sents[i]? = some s) :
    (buildFeatures tk ise wl pid m0 sents).input_ids[i]? =
      some (finalizeSent tk ise wl pid (effMax m0 sents) s).input_ids ∧
    (buildFeatures tk ise wl pid m0 sents).segment_ids[i]? =
      some (finalizeSent tk ise wl pid (effMax m0 sents) s).segment_ids ∧
    (buildFeatures tk ise wl pid m0 sents).input_mask[i]? =
      some (finalizeSent tk ise wl pid (effMax m0 sents) s).input_mask ∧
    (buildFeatures tk ise wl pid m0 sents).loss_mask[i]? =
      some (finalizeSent tk ise wl pid (effMax m0 sents) s).loss_mask ∧
    (buildFeatures tk ise wl pid m0 sents).subtokens_mask[i]? =
      some (finalizeSent tk ise wl pid (effMax m0 sents) s).subtokens_mask ∧
    (wl = true →
      (buildFeatures tk ise wl pid m0 sents).labels[i]? =
        some (finalizeSent tk ise wl pid (effMax m0 sents) s).labels) := by
  refine ⟨?_, ?_, ?_, ?_, ?_, ?_⟩ <;>
    simp [buildFeatures, List.getElem?_map, hi]
  intro hwl
  simp [hwl, List.getElem?_map, hi]

/-- The outer lengths of the assembled features: one row per sentence for the
first five sequences, and for the labels exactly when labels were supplied
(otherwise the labels stay `[]`). -/
theorem buildF_lengths (tk : Tokenizer) (ise : Bool) (wl : Bool) (pid m0 : Nat)
    (sents : List SentFeat) :
    (buildFeatures tk ise wl pid m0 sents).input_ids.length = sents.length ∧
    (buildFeatures tk ise wl pid m0 sents).segment_ids.length = sents.length ∧
    (buildFeatures tk ise wl pid m0 sents).input_mask.length = sents.length ∧
    (buildFeatures tk ise wl pid m0 sents).loss_mask.length = sents.length ∧
    (buildFeatures tk ise wl pid m0 sents).subtokens_mask.length = sents.length ∧
    (buildFeatures tk ise wl pid m0 sents).labels
      = if wl then (sents.map
          (finalizeSent tk ise wl pid (effMax m0 sents))).map FinalRec.labels
        else [] := by
  refine ⟨?_, ?_, ?_, ?_, ?_, ?_⟩ <;> simp [buildFeatures]

/-- Mapping tokens to ids preserves the length (pointwise capability). -/
theorem tokens_to_ids_length (tk : Tokenizer) (ts : List String) :
    (tk.tokens_to_ids ts).length = ts.length := by
  simp [Tokenizer.tokens_to_ids]

/-- The effective max length never exceeds the longest real sentence. -/
theorem effMax_le (m0 : Nat) (sents : List SentFeat) :
    effMax m0 sents ≤ (sents.map (fun s => s.subtokens.length)).foldl Nat.max 0 :=
  Nat.min_le_right _ _

/-- Expressed over the queries, the effective max length is the minimum of the
configured bound and the longest `sentLen`. -/
theorem effMax_eq (tk : Tokenizer) (li : String → Nat) (pl : String)
    (iet ise : Bool) (qs : List String) (rl? : Option (List (List String)))
    (sents : List SentFeat) (m0 : Nat)
    (hs : encodeSents tk li pl iet ise qs rl? = some sents) :
    effMax m0 sents = min m0 ((qs.map (sentLen tk)).foldl Nat.max 0) := by
  unfold effMax
  rw [es_lengths_map tk li pl iet ise qs rl? sents hs]

/-- With a configured bound of at least 2 and a non-empty batch, the effective
max length is at least 2 (every sentence carries its two boundary markers). -/
theorem two_le_effMax (m0 : Nat) (sents : List SentFeat) (hm0 : 2 ≤ m0)
    (hne : sents ≠ []) (hall : ∀ s ∈ sents, 2 ≤ s.subtokens.length) :
    2 ≤ effMax m0 sents := by
  obtain ⟨s, hsm⟩ := List.exists_mem_of_ne_nil sents hne
  have h1 : s.subtokens.length ∈ sents.map (fun s => s.subtokens.length) :=
    List.mem_map_of_mem _ hsm
  have h2 := le_foldl_max_of_mem _ _ h1 0
  exact le_min hm0 (le_trans (hall s hsm) h2)

/-- For an effective max length `m ≥ 2` and a sentence whose mask arrays run in
parallel with its subtokens, every finalized array has length exactly `m`. -/
theorem finalizeSent_lengths (tk : Tokenizer) (ise wl : Bool) (pid m : Nat)
    (s : SentFeat) (hm : 2 ≤ m)
    (hp1 : s.loss_mask.length = s.subtokens.length)
    (hp2 : s.subtokens_mask.length = s.subtokens.length)
    (hp3 : s.input_mask.length = s.subtokens.length)
    (hlab : wl = true → s.labels.length = s.subtokens.length) :
    (finalizeSent tk ise wl pid m s).input_ids.length = m ∧
    (finalizeSent tk ise wl pid m s).segment_ids.length = m ∧
    (finalizeSent tk ise wl pid m s).input_mask.length = m ∧
    (finalizeSent tk ise wl pid m s).loss_mask.length = m ∧
    (finalizeSent tk ise wl pid m s).subtokens_mask.length = m ∧
    (wl = true → (finalizeSent tk ise wl pid m s).labels.length = m) := by
  rcases Nat.lt_trichotomy s.subtokens.length m with hlt | heq | hgt
  · rw [finalizeSent, truncSent_le tk ise wl pid m s hlt.le, padSent_lt tk wl pid m s hlt]
    refine ⟨?_, ?_, ?_, ?_, ?_, ?_⟩
    · show (tk.tokens_to_ids s.subtokens
        ++ List.replicate (m - s.subtokens.length) 0).length = m
      simp only [List.length_append, tokens_to_ids_length, List.length_replicate]
      omega
    · show (List.replicate m (0 : Nat)).length = m
      simp
    · show (s.input_mask ++ List.replicate (m - s.subtokens.length) 0).length = m
      simp only [List.length_append, List.length_replicate]
      omega
    · show (s.loss_mask ++ List.replicate (m - s.subtokens.length) 0).length = m
      simp only [List.length_append, List.length_replicate]
      omega
    · show (s.subtokens_mask ++ List.replicate (m - s.subtokens.length) 0).length = m
      simp only [List.length_append, List.length_replicate]
      omega
    · intro hwl
      show (if wl = true then s.labels ++ List.replicate (m - s.subtokens.length) pid
        else s.labels).length = m
      rw [if_pos hwl]
      simp only [List.length_append, List.length_replicate]
      have := hlab hwl
      omega
  · rw [finalizeSent_eq_len tk ise wl pid m s heq]
    refine ⟨?_, ?_, ?_, ?_, ?_, ?_⟩
    · show (tk.tokens_to_ids s.subtokens).length = m
      rw [tokens_to_ids_length]
      omega
    · show (List.replicate m (0 : Nat)).length = m
      simp
    · show s.input_mask.length = m
      omega
    · show s.loss_mask.length = m
      omega
    · show s.subtokens_mask.length = m
      omega
    · intro hwl
      have := hlab hwl
      show s.labels.length = m
      omega
  · have htr := truncSent_gt tk ise wl pid m s hm hgt
    have hlen : (truncSent tk ise wl pid m s).subtokens.length = m := by
      rw [htr]
      show (tk.cls_token :: s.subtokens.drop (s.subtokens.length - (m - 1))).length = m
      simp only [List.length_cons, List.length_drop]
      omega
    rw [finalizeSent, padSent_ge tk wl pid m _ (by omega)]
    refine ⟨?_, ?_, ?_, ?_, ?_, ?_⟩
    · show (tk.tokens_to_ids (truncSent tk ise wl pid m s).subtokens).length = m
      rw [tokens_to_ids_length, hlen]
    · show (List.replicate m (0 : Nat)).length = m
      simp
    · show (truncSent tk ise wl pid m s).input_mask.length = m
      rw [htr]
      show (1 :: s.input_mask.drop (s.input_mask.length - (m - 1))).length = m
      simp only [List.length_cons, List.length_drop]
      omega
    · show (truncSent tk ise wl pid m s).loss_mask.length = m
      rw [htr]
      show ((if ise then 0 else 1)
        :: s.loss_mask.drop (s.loss_mask.length - (m - 1))).length = m
      simp only [List.length_cons, List.length_drop]
      omega
    · show (truncSent tk ise wl pid m s).subtokens_mask.length = m
      rw [htr]
      show (0 :: s.subtokens_mask.drop (s.subtokens_mask.length - (m - 1))).length = m
      simp only [List.length_cons, List.length_drop]
      omega
    · intro hwl
      show (truncSent tk ise wl pid m s).labels.length = m
      rw [htr]
      show (if wl = true then pid :: s.labels.drop (s.labels.length - (m - 1))
        else s.labels).length = m
      rw [if_pos hwl]
      simp only [List.length_cons, List.length_drop]
      have := hlab hwl
      omega

/-! ### Claim theorems -/

/-- C9: `get_features` fails on the empty query list — Python's
`max(sent_lengths)` at source line 116 raises `ValueError` on an empty batch —
and on any non-empty query list with no labels supplied it succeeds, so
non-emptiness of the query list is exactly the precondition, never stated by
the spec, that makes this error branch unreachable. -/
theorem c9_empty_queries_fail :
    (∀ (m0 : Nat) (tk : Tokenizer) (li : String → Nat) (pl : String)
        (rl : Option (List (List String))) (iet ise : Bool),
      get_features [] m0 tk li pl rl iet ise = none) ∧
    (∀ (q : String) (qs : List String) (m0 : Nat) (tk : Tokenizer)
        (li : String → Nat) (pl : String) (iet ise : Bool),
      (get_features (q :: qs) m0 tk li pl none iet ise).isSome = true) := by
  constructor
  · intro m0 tk li pl rl iet ise
    simp [get_features, es_nil]
  · intro q qs m0 tk li pl iet ise
    exact gf_isSome_none q qs m0 tk li pl iet ise

/-- C10: with `raw_labels` absent (inference mode) `get_features` still
returns the six-component record, but its labels component is `[]` rather
than a sequence with one entry per sentence, while the five other components
have one row per query; and the inference dataset wrapper stores exactly the
first five components of that record. -/
theorem c10_inference_labels_empty :
    (∀ (queries : List String) (m0 : Nat) (tk : Tokenizer) (li : String → Nat)
        (pl : String) (iet ise : Bool) (F : Features),
      get_features queries m0 tk li pl none iet ise = some F →
      F.labels = [] ∧
      F.input_ids.length = queries.length ∧
      F.segment_ids.length = queries.length ∧
      F.input_mask.length = queries.length ∧
      F.loss_mask.length = queries.length ∧
      F.subtokens_mask.length = queries.length) ∧
    (∀ (queries : List String) (m0 : Nat) (tk : Tokenizer),
      mkInferDataset queries m0 tk =
        (get_features queries m0 tk (fun _ => 0) "O" none false false).map
          (fun F => ⟨F.input_ids, F.segment_ids, F.input_mask, F.loss_mask,
            F.subtokens_mask⟩)) := by
  constructor
  · intro queries m0 tk li pl iet ise F h
    obtain ⟨sents, hs, hne, hF⟩ := gf_some_inv queries m0 tk li pl none iet ise F h
    subst hF
    have hlen := es_length tk li pl iet ise queries none sents hs
    obtain ⟨l1, l2, l3, l4, l5, l6⟩ :=
      buildF_lengths tk ise (none : Option (List (List String))).isSome (li pl) m0 sents
    refine ⟨?_, ?_, ?_, ?_, ?_, ?_⟩
    · rw [l6]
      rfl
    · rw [l1, hlen]
    · rw [l2, hlen]
    · rw [l3, hlen]
    · rw [l4, hlen]
    · rw [l5, hlen]
  · intro queries m0 tk
    rfl

/-- C2: in the per-sentence stage of `get_features` (source lines 82–105), the
loss mask is `1 - ignore_start_end` for the prepended start marker, then for
each word `1` for its first subword followed by `int(not ignore_extra_tokens)`
for each continuation subword, then `1 - ignore_start_end` again for the
appended end marker; the alignment mask is `0` on both markers and, per word,
`1` on the first subword and `0` on continuations. -/
theorem c2_mask_policy (tk : Tokenizer) (li : String → Nat) (pl : String)
    (iet ise : Bool) (q : String) (ql? : Option (List String)) (s : SentFeat)
    (h : sentEncode tk li pl iet ise q ql? = some s) :
    s.loss_mask =
      (1 - (if ise then 1 else 0))
        :: ((pySplit q).map (fun w =>
            1 :: List.replicate ((tk.text_to_tokens w).length - 1)
              (if iet then 0 else 1))).flatten
        ++ [1 - (if ise then 1 else 0)] ∧
    s.subtokens_mask =
      0 :: ((pySplit q).map (fun w =>
            1 :: List.replicate ((tk.text_to_tokens w).length - 1) 0)).flatten
        ++ [0] := by
  obtain ⟨r, hr, -, hl, hm, -⟩ := se_inv tk li pl iet ise q ql? s h
  constructor
  · rw [hl, wl_loss_mask tk (if iet then 0 else 1) (pySplit q) _ r hr]
  · rw [hm, wl_subtokens_mask tk (if iet then 0 else 1) (pySplit q) _ r hr]

/-- Witness for C2 at a concrete input: two words of two subwords each, with
"ignore start/end" configured. -/
theorem c2_mask_policy_witness :
    ∃ s, sentEncode tkDup (fun _ => 0) "O" false true "ab c" none = some s ∧
      (s.loss_mask =
        (1 - (if true then 1 else 0))
          :: ((pySplit "ab c").map (fun w =>
              1 :: List.replicate ((tkDup.text_to_tokens w).length - 1)
                (if false then 0 else 1))).flatten
          ++ [1 - (if true then 1 else 0)] ∧
       s.subtokens_mask =
        0 :: ((pySplit "ab c").map (fun w =>
              1 :: List.replicate ((tkDup.text_to_tokens w).length - 1) 0)).flatten
          ++ [0]) :=
  ⟨_, rfl, c2_mask_policy tkDup (fun _ => 0) "O" false true "ab c" none _ rfl⟩

/-- C4: in labelled mode every subword produced for a word — first and
continuation subwords alike — receives that word's label id (labels are
expanded per subtoken, source line 101), and both sentence-boundary markers
receive the pad label id (source lines 87, 113). -/
theorem c4_label_expansion (tk : Tokenizer) (li : String → Nat) (pl : String)
    (iet ise : Bool) (queries : List String) (rls : List (List String))
    (sents : List SentFeat) (i : Nat) (q : String) (ql : List String)
    (s : SentFeat)
    (hs : encodeSents tk li pl iet ise queries (some rls) = some sents)
    (hq : queries[i]? = some q) (hl : rls[i]? = some ql)
    (hsi : sents[i]? = some s) :
    s.labels =
      li pl :: (List.zipWith
          (fun w lab => List.replicate (tk.text_to_tokens w).length (li lab))
          (pySplit q) ql).flatten
        ++ [li pl] := by
  have hse := es_get_labeled tk li pl iet ise queries rls sents hs i q ql s hq hl hsi
  obtain ⟨r, hr, hlab⟩ := se_labels_some tk li pl iet ise q ql s hse
  rw [hlab, wl_labels tk (if iet then 0 else 1) (pySplit q) (ql.map li) r hr,
    List.zipWith_map_right]

/-- Witness for C4 at a concrete input: words "ab" and "c", each split into
two subwords by the tokenizer, with label ids given by string length. -/
theorem c4_label_expansion_witness :
    ∃ sents s,
      encodeSents tkDup String.length "O" false false ["ab c"]
        (some [["X", "Y"]]) = some sents ∧
      sents[0]? = some s ∧
      s.labels =
        String.length "O" :: (List.zipWith
            (fun w lab => List.replicate (tkDup.text_to_tokens w).length
              (String.length lab))
            (pySplit "ab c") ["X", "Y"]).flatten
          ++ [String.length "O"] :=
  ⟨_, _, rfl, rfl,
    c4_label_expansion tkDup String.length "O" false false ["ab c"]
      [["X", "Y"]] _ 0 "ab c" ["X", "Y"] _ rfl rfl rfl rfl⟩

/-- Counterexample to C8 as stated: on a construction where the feature cache
already exists and no overwrite is requested (source line 235), a sample count
of exactly zero and a label/text line-count mismatch raise nothing — the
constructor returns normally, loading from the cache. -/
theorem c8_cex :
    trainInitChecks "a.txt" true false true 0 ["x"] [] =
      Except.ok (["x"], []) := by rfl

/-- C8 (amended): the extension check alone runs on every construction; the
zero-sample-count check, the line-count check and the sample cap run only on
the master device when the cache is absent or an overwrite is requested, and
there a negative sample count means "use all samples".  On the cache-hit (or
non-master) path only the extension check can fail. -/
theorem c8_init_checks_amended (text_file : String)
    (master ow cache : Bool) (num_samples : Int)
    (text_lines : List String) (labels_lines : List (List String)) :
    (pyEndsWith text_file ".txt" = false →
      trainInitChecks text_file master ow cache num_samples text_lines labels_lines
        = Except.error InitError.badExtension) ∧
    (pyEndsWith text_file ".txt" = true → master = true →
      (ow = true ∨ cache = false) →
      ((num_samples = 0 →
        trainInitChecks text_file master ow cache num_samples text_lines labels_lines
          = Except.error InitError.zeroNumSamples) ∧
       (num_samples ≠ 0 → labels_lines.length ≠ text_lines.length →
        trainInitChecks text_file master ow cache num_samples text_lines labels_lines
          = Except.error InitError.labelsLineCountMismatch) ∧
       (num_samples < 0 → labels_lines.length = text_lines.length →
        trainInitChecks text_file master ow cache num_samples text_lines labels_lines
          = Except.ok (text_lines, labels_lines)))) ∧
    (pyEndsWith text_file ".txt" = true →
      (master = false ∨ (ow = false ∧ cache = true)) →
      trainInitChecks text_file master ow cache num_samples text_lines labels_lines
        = Except.ok (text_lines, labels_lines)) := by
  refine ⟨?_, ?_, ?_⟩
  · intro hext
    unfold trainInitChecks
    rw [if_pos (by simp [hext])]
  · intro hext hmaster hpath
    have hcond : (master = true ∧ (ow = true ∨ ¬ cache = true)) := by
      rcases hpath with h1 | h1
      · exact ⟨hmaster, Or.inl h1⟩
      · exact ⟨hmaster, Or.inr (by simp [h1])⟩
    refine ⟨?_, ?_, ?_⟩
    · intro h0
      unfold trainInitChecks
      rw [if_neg (by simp [hext]), if_pos hcond, if_pos h0]
    · intro h0 hmm
      unfold trainInitChecks
      rw [if_neg (by simp [hext]), if_pos hcond, if_neg h0, if_pos hmm]
    · intro hneg hmm
      unfold trainInitChecks
      rw [if_neg (by simp [hext]), if_pos hcond, if_neg (by omega : ¬ num_samples = 0),
        if_neg (fun hne => hne hmm), if_neg (by omega : ¬ (0 : Int) < num_samples)]
  · intro hext hpath
    have hcond : ¬ (master = true ∧ (ow = true ∨ ¬ cache = true)) := by
      rcases hpath with h1 | ⟨h2, h3⟩
      · simp [h1]
      · simp [h2, h3]
    unfold trainInitChecks
    rw [if_neg (by simp [hext]), if_neg hcond]

/-- Witness for the amended C8: a line-count mismatch on the compute path is
reported as a configuration error. -/
theorem c8_init_checks_amended_witness :
    trainInitChecks "b.txt" true false false 5 ["x"] [] =
      Except.error InitError.labelsLineCountMismatch :=
  ((c8_init_checks_amended "b.txt" true false false 5 ["x"] []).2.1
    rfl rfl (Or.inr rfl)).2.1 (by decide) (by decide)

/-- C5: whenever `get_features` succeeds, the effective max length it uses —
observable as the length of each (all-zero) segment row and as the truncation
threshold behind the reported truncation count — equals
`min(configured max_seq_length, longest produced subtoken sequence across the
batch)`, and that value never exceeds the longest real sequence, so no record
is ever padded beyond the longest real sequence. -/
theorem c5_effective_max (queries : List String) (m0 : Nat) (tk : Tokenizer)
    (li : String → Nat) (pl : String) (rl : Option (List (List String)))
    (iet ise : Bool) (F : Features)
    (h : get_features queries m0 tk li pl rl iet ise = some F) :
    (∀ i, i < queries.length →
      F.segment_ids[i]? =
        some (List.replicate
          (min m0 ((queries.map (sentLen tk)).foldl Nat.max 0)) 0)) ∧
    min m0 ((queries.map (sentLen tk)).foldl Nat.max 0)
      ≤ (queries.map (sentLen tk)).foldl Nat.max 0 ∧
    F.too_long_count = (queries.map (sentLen tk)).countP
      (fun n => min m0 ((queries.map (sentLen tk)).foldl Nat.max 0) < n) := by
  obtain ⟨sents, hs, hne, hF⟩ := gf_some_inv queries m0 tk li pl rl iet ise F h
  subst hF
  have hlen := es_length tk li pl iet ise queries rl sents hs
  have heff := effMax_eq tk li pl iet ise queries rl sents m0 hs
  refine ⟨?_, Nat.min_le_right _ _, ?_⟩
  · intro i hi
    have hi' : i < sents.length := by omega
    have hsi : sents[i]? = some sents[i] := List.getElem?_eq_getElem hi'
    obtain ⟨-, h2, -, -, -, -⟩ :=
      buildF_get tk ise rl.isSome (li pl) m0 sents i sents[i] hsi
    rw [h2, finalizeSent_segment, heff]
  · have h0 : (buildFeatures tk ise rl.isSome (li pl) m0 sents).too_long_count
        = sents.countP (fun s => effMax m0 sents < s.subtokens.length) := rfl
    rw [h0, heff]
    have hmap := es_lengths_map tk li pl iet ise queries rl sents hs
    rw [← hmap, List.countP_map]
    rfl

/-- Witness for C5 at a concrete input: two sentences of produced lengths 4
and 3 under a configured bound of 3, so the effective max length is 3 and one
sentence counts as too long. -/
theorem c5_effective_max_witness :
    ∃ F, get_features ["a b", "c"] 3 tkId (fun _ => 0) "O" none false false
        = some F ∧
      ((∀ i, i < (["a b", "c"] : List String).length →
        F.segment_ids[i]? =
          some (List.replicate
            (min 3 (((["a b", "c"] : List String).map (sentLen tkId)).foldl
              Nat.max 0)) 0)) ∧
      min 3 (((["a b", "c"] : List String).map (sentLen tkId)).foldl Nat.max 0)
        ≤ ((["a b", "c"] : List String).map (sentLen tkId)).foldl Nat.max 0 ∧
      F.too_long_count = ((["a b", "c"] : List String).map (sentLen tkId)).countP
        (fun n => min 3 (((["a b", "c"] : List String).map (sentLen tkId)).foldl
          Nat.max 0) < n)) :=
  ⟨_, rfl, c5_effective_max ["a b", "c"] 3 tkId (fun _ => 0) "O" none false false
    _ rfl⟩

/-- C6: a sentence shorter than the effective max length is right-padded with
`0` in `input_ids`, `input_mask`, `loss_mask` and `subtokens_mask` and with
the pad label id in the labels (when supplied), the padding amount being
exactly the distance to the effective max length; and every sentence's
`segment_ids` is the all-zero row of length the effective max length. -/
theorem c6_padding (queries : List String) (m0 : Nat) (tk : Tokenizer)
    (li : String → Nat) (pl : String) (rl : Option (List (List String)))
    (iet ise : Bool) (F : Features) (sents : List SentFeat) (i : Nat)
    (s : SentFeat)
    (h : get_features queries m0 tk li pl rl iet ise = some F)
    (hs : encodeSents tk li pl iet ise queries rl = some sents)
    (hsi : sents[i]? = some s)
    (hlt : s.subtokens.length < effMax m0 sents) :
    F.input_ids[i]? = some (tk.tokens_to_ids s.subtokens
      ++ List.replicate (effMax m0 sents - s.subtokens.length) 0) ∧
    F.input_mask[i]? = some (s.input_mask
      ++ List.replicate (effMax m0 sents - s.subtokens.length) 0) ∧
    F.loss_mask[i]? = some (s.loss_mask
      ++ List.replicate (effMax m0 sents - s.subtokens.length) 0) ∧
    F.subtokens_mask[i]? = some (s.subtokens_mask
      ++ List.replicate (effMax m0 sents - s.subtokens.length) 0) ∧
    (∀ rls, rl = some rls →
      F.labels[i]? = some (s.labels
        ++ List.replicate (effMax m0 sents - s.subtokens.length) (li pl))) ∧
    (∀ j, j < queries.length →
      F.segment_ids[j]? = some (List.replicate (effMax m0 sents) 0)) := by
  obtain ⟨hne, hF⟩ := gf_some_with queries m0 tk li pl rl iet ise F sents h hs
  subst hF
  obtain ⟨g1, g2, g3, g4, g5, g6⟩ :=
    buildF_get tk ise rl.isSome (li pl) m0 sents i s hsi
  have hfin : finalizeSent tk ise rl.isSome (li pl) (effMax m0 sents) s
      = padSent tk rl.isSome (li pl) (effMax m0 sents) s := by
    rw [finalizeSent, truncSent_le _ _ _ _ _ _ hlt.le]
  have hpad := padSent_lt tk rl.isSome (li pl) (effMax m0 sents) s hlt
  refine ⟨?_, ?_, ?_, ?_, ?_, ?_⟩
  · rw [g1, hfin, hpad]
  · rw [g3, hfin, hpad]
  · rw [g4, hfin, hpad]
  · rw [g5, hfin, hpad]
  · intro rls hrl
    subst hrl
    rw [g6 rfl, hfin, hpad]
    simp
  · intro j hj
    have hlenq := es_length tk li pl iet ise queries rl sents hs
    have hj' : j < sents.length := by omega
    have hsj : sents[j]? = some sents[j] := List.getElem?_eq_getElem hj'
    obtain ⟨-, hseg, -, -, -, -⟩ :=
      buildF_get tk ise rl.isSome (li pl) m0 sents j sents[j] hsj
    rw [hseg, finalizeSent_segment]

/-- Witness for C6 at a concrete input: the second sentence (3 subtokens) is
padded to the effective max length 4 of the labelled batch. -/
theorem c6_padding_witness :
    ∃ F sents s,
      get_features ["a b", "a"] 10 tkId String.length "O"
        (some [["X", "Y"], ["Z"]]) false false = some F ∧
      encodeSents tkId String.length "O" false false ["a b", "a"]
        (some [["X", "Y"], ["Z"]]) = some sents ∧
      sents[1]? = some s ∧
      (F.input_ids[1]? = some (tkId.tokens_to_ids s.subtokens
        ++ List.replicate (effMax 10 sents - s.subtokens.length) 0) ∧
      F.input_mask[1]? = some (s.input_mask
        ++ List.replicate (effMax 10 sents - s.subtokens.length) 0) ∧
      F.loss_mask[1]? = some (s.loss_mask
        ++ List.replicate (effMax 10 sents - s.subtokens.length) 0) ∧
      F.subtokens_mask[1]? = some (s.subtokens_mask
        ++ List.replicate (effMax 10 sents - s.subtokens.length) 0) ∧
      (∀ rls, (some [["X", "Y"], ["Z"]] : Option (List (List String)))
          = some rls →
        F.labels[1]? = some (s.labels
          ++ List.replicate (effMax 10 sents - s.subtokens.length)
            (String.length "O"))) ∧
      (∀ j, j < (["a b", "a"] : List String).length →
        F.segment_ids[j]? = some (List.replicate (effMax 10 sents) 0))) :=
  ⟨_, _, _, rfl, rfl, rfl,
    c6_padding ["a b", "a"] 10 tkId String.length "O"
      (some [["X", "Y"], ["Z"]]) false false _ _ 1 _ rfl rfl rfl (by decide)⟩

/-- C7: a sentence that was not truncated has exactly one `1` bit in its
final `subtokens_mask` row per whitespace-separated word of the query: the
two boundary markers, all continuation subwords and all padding positions
contribute `0`. -/
theorem c7_mask_popcount (queries : List String) (m0 : Nat) (tk : Tokenizer)
    (li : String → Nat) (pl : String) (rl : Option (List (List String)))
    (iet ise : Bool) (F : Features) (sents : List SentFeat) (i : Nat)
    (q : String) (s : SentFeat)
    (h : get_features queries m0 tk li pl rl iet ise = some F)
    (hs : encodeSents tk li pl iet ise queries rl = some sents)
    (hq : queries[i]? = some q) (hsi : sents[i]? = some s)
    (hnt : s.subtokens.length ≤ effMax m0 sents) :
    ∃ row, F.subtokens_mask[i]? = some row ∧
      row.count 1 = (pySplit q).length := by
  obtain ⟨hne, hF⟩ := gf_some_with queries m0 tk li pl rl iet ise F sents h hs
  subst hF
  obtain ⟨-, -, -, -, g5, -⟩ :=
    buildF_get tk ise rl.isSome (li pl) m0 sents i s hsi
  obtain ⟨ql?, hse⟩ := es_get tk li pl iet ise queries rl sents hs i q s hq hsi
  have hc := se_mask_count tk li pl iet ise q ql? s hse
  refine ⟨_, g5, ?_⟩
  rw [finalizeSent, truncSent_le _ _ _ _ _ _ hnt]
  by_cases hlt : s.subtokens.length < effMax m0 sents
  · rw [padSent_lt _ _ _ _ _ hlt]
    show (s.subtokens_mask
      ++ List.replicate (effMax m0 sents - s.subtokens.length) 0).count 1
      = (pySplit q).length
    rw [List.count_append, hc]
    simp [List.count_replicate]
  · rw [padSent_ge _ _ _ _ _ hlt]
    exact hc

/-- Witness for C7 at a concrete input: the first sentence of the batch has
two words and is exactly at the effective max length. -/
theorem c7_mask_popcount_witness :
    ∃ F sents s,
      get_features ["a b", "a"] 10 tkId (fun _ => 0) "O" none false false
        = some F ∧
      encodeSents tkId (fun _ => 0) "O" false false ["a b", "a"] none
        = some sents ∧
      sents[0]? = some s ∧
      ∃ row, F.subtokens_mask[0]? = some row ∧
        row.count 1 = (pySplit "a b").length :=
  ⟨_, _, _, rfl, rfl, rfl,
    c7_mask_popcount ["a b", "a"] 10 tkId (fun _ => 0) "O" none false false
      _ _ 0 "a b" _ rfl rfl rfl rfl (by decide)⟩

/-- Counterexample to C3 as stated: at configured max length 1 the effective
max length is `min 1 4 = 1` (the segment row has length 1) and the claim
requires the truncated row to be the start marker followed by the last
`1 - 1 = 0` subtokens, i.e. a row of length 1; but the Python slice
`[-max+1:]` is `[0:]` (the whole list) there, so the "truncated" `input_ids`
row has length 5 — longer than before truncation — while the truncation
counter still reports 1. -/
theorem c3_cex :
    (get_features ["a b"] 1 tkId (fun _ => 0) "O" none false false).map
      (fun F => (F.too_long_count, F.input_ids.map List.length,
        F.segment_ids.map List.length)) = some (1, [5], [1]) := by rfl

/-- C3 (amended): for a configured max length of at least 2, a sentence
longer than the effective max length is right-truncated to the start marker
followed by the last `effective_max_length - 1` entries of each parallel
array (identically for `input_mask`, `loss_mask` and `subtokens_mask`), the
label row (when supplied) is reset to start with the pad label id, the
reported truncation count is exactly the number of sentences over the
effective max length, and a sentence exactly at the effective max length is
neither truncated nor padded. -/
theorem c3_truncation_amended (queries : List String) (m0 : Nat)
    (tk : Tokenizer) (li : String → Nat) (pl : String)
    (rl : Option (List (List String))) (iet ise : Bool) (F : Features)
    (sents : List SentFeat) (i : Nat) (s : SentFeat)
    (hm0 : 2 ≤ m0)
    (h : get_features queries m0 tk li pl rl iet ise = some F)
    (hs : encodeSents tk li pl iet ise queries rl = some sents)
    (hsi : sents[i]? = some s) :
    (effMax m0 sents < s.subtokens.length →
      F.input_ids[i]? = some (tk.tokens_to_ids (tk.cls_token
        :: s.subtokens.drop (s.subtokens.length - (effMax m0 sents - 1)))) ∧
      F.input_mask[i]? = some (1
        :: s.input_mask.drop (s.input_mask.length - (effMax m0 sents - 1))) ∧
      F.loss_mask[i]? = some ((if ise then 0 else 1)
        :: s.loss_mask.drop (s.loss_mask.length - (effMax m0 sents - 1))) ∧
      F.subtokens_mask[i]? = some (0
        :: s.subtokens_mask.drop
          (s.subtokens_mask.length - (effMax m0 sents - 1))) ∧
      (∀ rls, rl = some rls →
        F.labels[i]? = some (li pl
          :: s.labels.drop (s.labels.length - (effMax m0 sents - 1))))) ∧
    (s.subtokens.length = effMax m0 sents →
      F.input_ids[i]? = some (tk.tokens_to_ids s.subtokens) ∧
      F.input_mask[i]? = some s.input_mask ∧
      F.loss_mask[i]? = some s.loss_mask ∧
      F.subtokens_mask[i]? = some s.subtokens_mask ∧
      (∀ rls, rl = some rls → F.labels[i]? = some s.labels)) ∧
    F.too_long_count
      = sents.countP (fun t => effMax m0 sents < t.subtokens.length) := by
  obtain ⟨hne, hF⟩ := gf_some_with queries m0 tk li pl rl iet ise F sents h hs
  subst hF
  obtain ⟨g1, g2, g3, g4, g5, g6⟩ :=
    buildF_get tk ise rl.isSome (li pl) m0 sents i s hsi
  have hall : ∀ t ∈ sents, 2 ≤ t.subtokens.length := by
    intro t ht
    obtain ⟨q2, ql2, hse2, -⟩ := es_mem tk li pl iet ise queries rl sents hs t ht
    exact se_two_le tk li pl iet ise q2 ql2 t hse2
  have hm : 2 ≤ effMax m0 sents := two_le_effMax m0 sents hm0 hne hall
  refine ⟨?_, ?_, ?_⟩
  · intro hgt
    have htr := truncSent_gt tk ise rl.isSome (li pl) (effMax m0 sents) s hm hgt
    have hlen : (truncSent tk ise rl.isSome (li pl)
        (effMax m0 sents) s).subtokens.length = effMax m0 sents := by
      rw [htr]
      show (tk.cls_token :: s.subtokens.drop
        (s.subtokens.length - (effMax m0 sents - 1))).length = effMax m0 sents
      simp only [List.length_cons, List.length_drop]
      omega
    have hpad := padSent_ge tk rl.isSome (li pl) (effMax m0 sents)
      (truncSent tk ise rl.isSome (li pl) (effMax m0 sents) s) (by omega)
    refine ⟨?_, ?_, ?_, ?_, ?_⟩
    · rw [g1, finalizeSent, hpad, htr]
    · rw [g3, finalizeSent, hpad, htr]
    · rw [g4, finalizeSent, hpad, htr]
    · rw [g5, finalizeSent, hpad, htr]
    · intro rls hrl
      subst hrl
      rw [g6 rfl, finalizeSent, hpad, htr]
      simp
  · intro heq
    have hfe := finalizeSent_eq_len tk ise rl.isSome (li pl)
      (effMax m0 sents) s heq
    refine ⟨?_, ?_, ?_, ?_, ?_⟩
    · rw [g1, hfe]
    · rw [g3, hfe]
    · rw [g4, hfe]
    · rw [g5, hfe]
    · intro rls hrl
      subst hrl
      rw [g6 rfl, hfe]
  · rfl

/-- Witness for the amended C3 at a concrete input: a labelled batch with
effective max length 3 whose first sentence (5 subtokens) is truncated. -/
theorem c3_truncation_amended_witness :
    ∃ F sents s,
      get_features ["a b c", "a"] 3 tkId String.length "O"
        (some [["X", "Y", "Z"], ["W"]]) false false = some F ∧
      encodeSents tkId String.length "O" false false ["a b c", "a"]
        (some [["X", "Y", "Z"], ["W"]]) = some sents ∧
      sents[0]? = some s ∧
      ((effMax 3 sents < s.subtokens.length →
        F.input_ids[0]? = some (tkId.tokens_to_ids (tkId.cls_token
          :: s.subtokens.drop (s.subtokens.length - (effMax 3 sents - 1)))) ∧
        F.input_mask[0]? = some (1
          :: s.input_mask.drop (s.input_mask.length - (effMax 3 sents - 1))) ∧
        F.loss_mask[0]? = some ((if false then 0 else 1)
          :: s.loss_mask.drop (s.loss_mask.length - (effMax 3 sents - 1))) ∧
        F.subtokens_mask[0]? = some (0
          :: s.subtokens_mask.drop
            (s.subtokens_mask.length - (effMax 3 sents - 1))) ∧
        (∀ rls, (some [["X", "Y", "Z"], ["W"]] :
            Option (List (List String))) = some rls →
          F.labels[0]? = some (String.length "O"
            :: s.labels.drop (s.labels.length - (effMax 3 sents - 1))))) ∧
      (s.subtokens.length = effMax 3 sents →
        F.input_ids[0]? = some (tkId.tokens_to_ids s.subtokens) ∧
        F.input_mask[0]? = some s.input_mask ∧
        F.loss_mask[0]? = some s.loss_mask ∧
        F.subtokens_mask[0]? = some s.subtokens_mask ∧
        (∀ rls, (some [["X", "Y", "Z"], ["W"]] :
            Option (List (List String))) = some rls →
          F.labels[0]? = some s.labels)) ∧
      F.too_long_count
        = sents.countP (fun t => effMax 3 sents < t.subtokens.length)) :=
  ⟨_, _, _, rfl, rfl, rfl,
    c3_truncation_amended ["a b c", "a"] 3 tkId String.length "O"
      (some [["X", "Y", "Z"], ["W"]]) false false _ _ 0 _ (by decide)
      rfl rfl rfl⟩

/-- Counterexample to C1 as stated: at configured max length 1 (with labels
supplied) the effective max length is `min 1 3 = 1` — the segment row has
length 1 — yet the `input_ids` and `loss_mask` rows have length 4, because
the degenerate truncation slice `[-1+1:] = [0:]` prepends a marker without
removing anything.  So not all six per-sentence arrays have the effective max
length. -/
theorem c1_cex :
    (get_features ["a"] 1 tkId (fun _ => 0) "O" (some [["O"]]) false false).map
      (fun F => (F.input_ids.map List.length, F.segment_ids.map List.length,
        F.loss_mask.map List.length)) = some ([4], [1], [4]) := by rfl

/-- C1 (amended): for a tokenizer producing at least one subword per word
(the tokenizer contract of spec §3) and a configured max length of at least
2, a successful `get_features` run returns six sequences with one row per
input sentence (the labels exactly when labels were supplied), and every row
of every sequence has length exactly the effective max length. -/
theorem c1_parallel_lengths_amended (queries : List String) (m0 : Nat)
    (tk : Tokenizer) (li : String → Nat) (pl : String)
    (rl : Option (List (List String))) (iet ise : Bool) (F : Features)
    (sents : List SentFeat)
    (htk : ∀ w, tk.text_to_tokens w ≠ [])
    (hm0 : 2 ≤ m0)
    (h : get_features queries m0 tk li pl rl iet ise = some F)
    (hs : encodeSents tk li pl iet ise queries rl = some sents) :
    F.input_ids.length = queries.length ∧
    F.segment_ids.length = queries.length ∧
    F.input_mask.length = queries.length ∧
    F.loss_mask.length = queries.length ∧
    F.subtokens_mask.length = queries.length ∧
    (rl.isSome = true → F.labels.length = queries.length) ∧
    (∀ (i : Nat) (s : SentFeat), sents[i]? = some s →
      (∀ (row : List Nat), F.input_ids[i]? = some row → row.length = effMax m0 sents) ∧
      (∀ (row : List Nat), F.segment_ids[i]? = some row → row.length = effMax m0 sents) ∧
      (∀ (row : List Nat), F.input_mask[i]? = some row → row.length = effMax m0 sents) ∧
      (∀ (row : List Nat), F.loss_mask[i]? = some row → row.length = effMax m0 sents) ∧
      (∀ (row : List Nat), F.subtokens_mask[i]? = some row → row.length = effMax m0 sents) ∧
      (rl.isSome = true → ∀ (row : List Nat), F.labels[i]? = some row →
        row.length = effMax m0 sents)) := by
  obtain ⟨hne, hF⟩ := gf_some_with queries m0 tk li pl rl iet ise F sents h hs
  subst hF
  have hlenq := es_length tk li pl iet ise queries rl sents hs
  obtain ⟨l1, l2, l3, l4, l5, l6⟩ := buildF_lengths tk ise rl.isSome (li pl) m0 sents
  have hall : ∀ t ∈ sents, 2 ≤ t.subtokens.length := by
    intro t ht
    obtain ⟨q2, ql2, hse2, -⟩ := es_mem tk li pl iet ise queries rl sents hs t ht
    exact se_two_le tk li pl iet ise q2 ql2 t hse2
  have hm : 2 ≤ effMax m0 sents := two_le_effMax m0 sents hm0 hne hall
  refine ⟨?_, ?_, ?_, ?_, ?_, ?_, ?_⟩
  · rw [l1, hlenq]
  · rw [l2, hlenq]
  · rw [l3, hlenq]
  · rw [l4, hlenq]
  · rw [l5, hlenq]
  · intro hwl
    rw [l6, if_pos hwl]
    simp [List.length_map, hlenq]
  · intro i s hsi
    have hmem : s ∈ sents := List.getElem?_mem hsi
    obtain ⟨q2, ql2, hse2, hiso⟩ := es_mem tk li pl iet ise queries rl sents hs s hmem
    obtain ⟨p1, p2, p3⟩ := se_parallel tk li pl iet ise htk q2 ql2 s hse2
    have plab : rl.isSome = true → s.labels.length = s.subtokens.length := by
      intro hwl
      rw [hwl] at hiso
      cases ql2 with
      | none => simp at hiso
      | some ql2' => exact se_labels_length tk li pl iet ise q2 ql2' s hse2
    obtain ⟨f1, f2, f3, f4, f5, f6⟩ := finalizeSent_lengths tk ise rl.isSome
      (li pl) (effMax m0 sents) s hm p1 p2 p3 plab
    obtain ⟨g1, g2, g3, g4, g5, g6⟩ :=
      buildF_get tk ise rl.isSome (li pl) m0 sents i s hsi
    refine ⟨?_, ?_, ?_, ?_, ?_, ?_⟩
    · intro row hrow
      rw [g1] at hrow
      cases Option.some_inj.mp hrow
      exact f1
    · intro row hrow
      rw [g2] at hrow
      cases Option.some_inj.mp hrow
      exact f2
    · intro row hrow
      rw [g3] at hrow
      cases Option.some_inj.mp hrow
      exact f3
    · intro row hrow
      rw [g4] at hrow
      cases Option.some_inj.mp hrow
      exact f4
    · intro row hrow
      rw [g5] at hrow
      cases Option.some_inj.mp hrow
      exact f5
    · intro hwl row hrow
      rw [g6 hwl] at hrow
      cases Option.some_inj.mp hrow
      exact f6 hwl

/-- Witness for the amended C1 at a concrete labelled input with effective
max length 4. -/
theorem c1_parallel_lengths_amended_witness :
    ∃ F sents,
      get_features ["a b", "a"] 10 tkId String.length "O"
        (some [["X", "Y"], ["Z"]]) false false = some F ∧
      encodeSents tkId String.length "O" false false ["a b", "a"]
        (some [["X", "Y"], ["Z"]]) = some sents ∧
      (F.input_ids.length = (["a b", "a"] : List String).length ∧
      F.segment_ids.length = (["a b", "a"] : List String).length ∧
      F.input_mask.length = (["a b", "a"] : List String).length ∧
      F.loss_mask.length = (["a b", "a"] : List String).length ∧
      F.subtokens_mask.length = (["a b", "a"] : List String).length ∧
      ((some [["X", "Y"], ["Z"]] : Option (List (List String))).isSome = true →
        F.labels.length = (["a b", "a"] : List String).length) ∧
      (∀ (i : Nat) (s : SentFeat), sents[i]? = some s →
        (∀ (row : List Nat), F.input_ids[i]? = some row → row.length = effMax 10 sents) ∧
        (∀ (row : List Nat), F.segment_ids[i]? = some row → row.length = effMax 10 sents) ∧
        (∀ (row : List Nat), F.input_mask[i]? = some row → row.length = effMax 10 sents) ∧
        (∀ (row : List Nat), F.loss_mask[i]? = some row → row.length = effMax 10 sents) ∧
        (∀ (row : List Nat), F.subtokens_mask[i]? = some row →
          row.length = effMax 10 sents) ∧
        ((some [["X", "Y"], ["Z"]] :
            Option (List (List String))).isSome = true →
          ∀ (row : List Nat), F.labels[i]? = some row → row.length = effMax 10 sents))) :=
  ⟨_, _, rfl, rfl,
    c1_parallel_lengths_amended ["a b", "a"] 10 tkId String.length "O"
      (some [["X", "Y"], ["Z"]]) false false _ _
      (fun w => by simp [tkId]) (by decide) rfl rfl⟩

/-- Witness for C10 at a concrete input. -/
theorem c10_inference_labels_empty_witness :
    ∃ F, get_features ["hi"] 5 tkId (fun _ => 0) "O" none false false
        = some F ∧
      (F.labels = [] ∧
       F.input_ids.length = (["hi"] : List String).length ∧
       F.segment_ids.length = (["hi"] : List String).length ∧
       F.input_mask.length = (["hi"] : List String).length ∧
       F.loss_mask.length = (["hi"] : List String).length ∧
       F.subtokens_mask.length = (["hi"] : List String).length) :=
  ⟨_, rfl, c10_inference_labels_empty.1 ["hi"] 5 tkId (fun _ => 0) "O"
    false false _ rfl⟩
